import Mathlib

/-!
Shallow embedding of the guessing-game loop from
src/chapter-2/guessing_game/src/main.rs and of the first_word function from
src/chapter-4/string-slice/src/main.rs, together with proofs of the
specification's claims about them.
-/

/-- Outcome of one comparison, from the three-arm match on
guess.cmp(&secret_number): Less prints "Too small!", Greater prints
"Too big!", Equal prints "You win!" and breaks the loop. -/
inductive Outcome where
  | tooSmall
  | tooBig
  | win
deriving DecidableEq

/-- The three-way ordering of a parsed guess against the secret, mirroring
guess.cmp(&secret_number): Less when guess < secret, Greater when
guess > secret, Equal otherwise. -/
def cmpOutcome (guess secret : Nat) : Outcome :=
  if guess < secret then Outcome.tooSmall
  else if secret < guess then Outcome.tooBig
  else Outcome.win

/-- Whitespace as removed by str::trim in guess.trim(); the inputs the
program meets are lines of text, where the relevant whitespace is the
ASCII kind (space, tab, newline, carriage return). -/
def isWhitespaceChar (c : Char) : Bool :=
  c = ' ' || c = '\t' || c = '\n' || c = '\r'

/-- str::trim on a character list: drop whitespace from both ends. -/
def trimChars (cs : List Char) : List Char :=
  ((cs.dropWhile isWhitespaceChar).reverse.dropWhile isWhitespaceChar).reverse

/-- Numeric value of an ASCII digit, none for any other character. -/
def digitVal (c : Char) : Option Nat :=
  if '0' ≤ c ∧ c ≤ '9' then some (c.toNat - '0'.toNat) else none

/-- Accumulate the decimal value of a digit string; none as soon as a
non-digit character appears. -/
def parseDigitsFrom (acc : Nat) : List Char → Option Nat
  | [] => some acc
  | c :: rest =>
    match digitVal c with
    | none => none
    | some d => parseDigitsFrom (acc * 10 + d) rest

/-- u32::MAX. -/
def u32Max : Nat := 4294967295

/-- str::parse::<u32>(): an optional leading plus sign, then one or more
ASCII digits, and the value must fit in u32; everything else is a parse
error. A lone minus sign or any negative literal fails because the minus
is not a digit. -/
def parseU32 (cs : List Char) : Option Nat :=
  let body :=
    match cs with
    | '+' :: rest => rest
    | _ => cs
  match body with
  | [] => none
  | _ :: _ =>
    match parseDigitsFrom 0 body with
    | none => none
    | some n => if n ≤ u32Max then some n else none

/-- The validation step of the loop body:
guess.trim().parse::<u32>() applied to one input line. -/
def parseGuess (line : String) : Option Nat :=
  parseU32 (trimChars line.data)

/-- One event on the input stream as seen by io::stdin().read_line:
either a line of text is delivered, or the read itself fails. -/
inductive ReadEvent where
  | line (s : String)
  | readErr
deriving DecidableEq

/-- read_line against a stream of pending events. At end of file,
read_line returns Ok(0) and leaves the buffer untouched, so the loop
receives the empty string; hence the empty stream yields the line "". -/
def readLine : List ReadEvent → ReadEvent × List ReadEvent
  | [] => (ReadEvent.line "", [])
  | e :: rest => (e, rest)

/-- How a bounded observation of the loop can end: the loop broke out
after "You win!" with the rest of the stream unconsumed, the process was
aborted by .expect on a failed read, or the loop is still running when
the observation bound is reached. -/
inductive GameResult where
  | won (rem : List ReadEvent)
  | aborted
  | running
deriving DecidableEq

/-- The loop of main, observed for at most fuel iterations: each
iteration reads a line (aborting on a read error, as
.expect("Failed to read line!!") does), tries to parse it as u32
(continue on failure), and otherwise records the guess with its
comparison outcome, breaking out on Equal. Returns the recorded
(guess, outcome) events and how the observation ended. -/
def runN (secret : Nat) : Nat → List ReadEvent → List (Nat × Outcome) × GameResult
  | 0, _ => ([], GameResult.running)
  | fuel + 1, input =>
    match readLine input with
    | (ReadEvent.readErr, _) => ([], GameResult.aborted)
    | (ReadEvent.line l, rest) =>
      match parseGuess l with
      | none => runN secret fuel rest
      | some g =>
        match cmpOutcome g secret with
        | Outcome.tooSmall =>
          ((g, Outcome.tooSmall) :: (runN secret fuel rest).1, (runN secret fuel rest).2)
        | Outcome.tooBig =>
          ((g, Outcome.tooBig) :: (runN secret fuel rest).1, (runN secret fuel rest).2)
        | Outcome.win => ([(g, Outcome.win)], GameResult.won rest)

/-- An error-free input stream delivering the given lines in order. -/
def lineEvents (lines : List String) : List ReadEvent :=
  lines.map ReadEvent.line

/-- The loop run on an error-free stream of text lines. -/
def runLines (secret fuel : Nat) (lines : List String) :
    List (Nat × Outcome) × GameResult :=
  runN secret fuel (lineEvents lines)

/-- The guesses that survive validation, in order: the lines on which
guess.trim().parse::<u32>() succeeds. -/
def parsedGuesses (lines : List String) : List Nat :=
  lines.filterMap parseGuess

/-- Modelled from the spec: the implementation of rand::Rng::gen_range is
not part of this repository (only the call gen_range(1..101) is); the
spec states that initialization produces one SecretNumber uniformly at
random from [1,100] inclusive. We model the set of values the call
gen_range(lo..hi) can produce as the half-open integer range. -/
def genRangeCanProduce (lo hi n : Nat) : Prop := lo ≤ n ∧ n < hi

/-- The possible values of secret_number = rand::thread_rng().gen_range(1..101). -/
def secretNumberCanBe (n : Nat) : Prop := genRangeCanProduce 1 101 n

/-- first_word from src/chapter-4/string-slice/src/main.rs: scan the
bytes for the first space, returning the slice strictly before it, or
the whole string when there is none. Modelled on characters: a space
byte in UTF-8 always encodes the space character, so the first space
byte is the first space character and the byte slice before it holds
exactly the characters before it. -/
def first_word (s : List Char) : List Char :=
  match s.findIdx? (fun c => c == ' ') with
  | some i => s.take i
  | none => s

lemma cmpOutcome_of_lt {g s : Nat} (h : g < s) : cmpOutcome g s = Outcome.tooSmall := by
  simp [cmpOutcome, h]

lemma cmpOutcome_of_gt {g s : Nat} (h : s < g) : cmpOutcome g s = Outcome.tooBig := by
  simp [cmpOutcome, Nat.lt_asymm h, h]

lemma cmpOutcome_self (s : Nat) : cmpOutcome s s = Outcome.win := by
  simp [cmpOutcome]

lemma cmpOutcome_eq_win_iff {g s : Nat} : cmpOutcome g s = Outcome.win ↔ g = s := by
  constructor
  · intro h
    rcases Nat.lt_trichotomy g s with hlt | heq | hgt
    · rw [cmpOutcome_of_lt hlt] at h; exact absurd h (by simp)
    · exact heq
    · rw [cmpOutcome_of_gt hgt] at h; exact absurd h (by simp)
  · intro h; subst h; exact cmpOutcome_self g

lemma parseGuess_empty : parseGuess "" = none := rfl

lemma runN_nil (s : Nat) : ∀ fuel, runN s fuel [] = ([], GameResult.running) := by
  intro fuel
  induction fuel with
  | zero => rfl
  | succ n ih =>
    show runN s (n + 1) [] = ([], GameResult.running)
    rw [runN]
    simp [readLine, parseGuess_empty, ih]

lemma runN_event_sound (s : Nat) :
    ∀ fuel input e, e ∈ (runN s fuel input).1 → e.2 = cmpOutcome e.1 s := by
  intro fuel
  induction fuel with
  | zero => intro input e h; simp [runN] at h
  | succ n ih =>
    intro input e h
    match input with
    | [] =>
      rw [runN] at h
      simp only [readLine, parseGuess_empty] at h
      exact ih [] e h
    | ReadEvent.readErr :: rest =>
      rw [runN] at h
      simp [readLine] at h
    | ReadEvent.line l :: rest =>
      rw [runN] at h
      simp only [readLine] at h
      cases hp : parseGuess l with
      | none =>
        rw [hp] at h
        exact ih rest e h
      | some g =>
        simp only [hp] at h
        cases hc : cmpOutcome g s with
        | tooSmall =>
          rw [hc] at h
          simp only [List.mem_cons] at h
          rcases h with h | h
          · subst h; simpa using hc.symm
          · exact ih rest e h
        | tooBig =>
          rw [hc] at h
          simp only [List.mem_cons] at h
          rcases h with h | h
          · subst h; simpa using hc.symm
          · exact ih rest e h
        | win =>
          rw [hc] at h
          simp only [List.mem_cons, List.not_mem_nil, or_false] at h
          subst h; simpa using hc.symm

lemma runLines_no_win (s : Nat) :
    ∀ fuel lines, s ∉ parsedGuesses lines →
      (runLines s fuel lines).2 = GameResult.running := by
  intro fuel
  induction fuel with
  | zero => intro lines _; simp [runLines, runN]
  | succ n ih =>
    intro lines hmem
    match lines with
    | [] =>
      show (runN s (n + 1) []).2 = GameResult.running
      simp [runN_nil]
    | l :: rest =>
      show (runN s (n + 1) (ReadEvent.line l :: lineEvents rest)).2 = GameResult.running
      rw [runN]
      simp only [readLine]
      cases hp : parseGuess l with
      | none =>
        have : parsedGuesses (l :: rest) = parsedGuesses rest := by
          simp [parsedGuesses, hp]
        rw [this] at hmem
        exact ih rest hmem
      | some g =>
        have hpg : parsedGuesses (l :: rest) = g :: parsedGuesses rest := by
          simp [parsedGuesses, hp]
        rw [hpg] at hmem
        simp only [List.mem_cons, not_or] at hmem
        obtain ⟨hgs, hrest⟩ := hmem
        have hwin : cmpOutcome g s ≠ Outcome.win := by
          intro h
          exact hgs (cmpOutcome_eq_win_iff.mp h).symm
        cases hc : cmpOutcome g s with
        | tooSmall =>
          simp only [hc]
          exact ih rest hrest
        | tooBig =>
          simp only [hc]
          exact ih rest hrest
        | win => exact absurd hc hwin

lemma runN_readErr (s n : Nat) (rest : List ReadEvent) :
    runN s (n + 1) (ReadEvent.readErr :: rest) = ([], GameResult.aborted) := rfl

lemma runN_parse_fail {s n : Nat} {l : String} (rest : List ReadEvent)
    (h : parseGuess l = none) :
    runN s (n + 1) (ReadEvent.line l :: rest) = runN s n rest := by
  rw [runN]
  simp [readLine, h]

lemma runN_guess {s n : Nat} {l : String} {g : Nat} (rest : List ReadEvent)
    (h : parseGuess l = some g) :
    runN s (n + 1) (ReadEvent.line l :: rest) =
      if g = s then ([(g, Outcome.win)], GameResult.won rest)
      else ((g, cmpOutcome g s) :: (runN s n rest).1, (runN s n rest).2) := by
  rw [runN]
  simp only [readLine, h]
  by_cases hgs : g = s
  · subst hgs
    simp [cmpOutcome_self]
  · rcases Nat.lt_or_ge g s with hlt | hge
    · simp [cmpOutcome_of_lt hlt, hgs]
    · have hgt : s < g := lt_of_le_of_ne hge (fun hh => hgs hh.symm)
      simp [cmpOutcome_of_gt hgt, hgs]

lemma runLines_win (s : Nat) :
    ∀ lines fuel, lines.length ≤ fuel → s ∈ parsedGuesses lines →
      ∃ rem, runLines s fuel lines =
        ((((parsedGuesses lines).takeWhile (fun g => g != s)).map
            (fun g => (g, cmpOutcome g s))) ++ [(s, Outcome.win)],
         GameResult.won rem) := by
  intro lines
  induction lines with
  | nil => intro fuel _ hmem; simp [parsedGuesses] at hmem
  | cons l rest ih =>
    intro fuel hlen hmem
    cases fuel with
    | zero => exact absurd hlen (by simp)
    | succ n =>
      have hlen' : rest.length ≤ n := by simpa using hlen
      show ∃ rem, runN s (n + 1) (ReadEvent.line l :: lineEvents rest) = _
      cases hp : parseGuess l with
      | none =>
        have hpg : parsedGuesses (l :: rest) = parsedGuesses rest := by
          simp [parsedGuesses, hp]
        rw [hpg] at hmem
        rw [runN_parse_fail (lineEvents rest) hp, hpg]
        exact ih n hlen' hmem
      | some g =>
        have hpg : parsedGuesses (l :: rest) = g :: parsedGuesses rest := by
          simp [parsedGuesses, hp]
        rw [runN_guess (lineEvents rest) hp, hpg]
        by_cases hgs : g = s
        · subst hgs
          refine ⟨lineEvents rest, ?_⟩
          simp
        · have hmem' : s ∈ parsedGuesses rest := by
            rw [hpg] at hmem
            rcases List.mem_cons.mp hmem with hh | hh
            · exact absurd hh.symm hgs
            · exact hh
          obtain ⟨rem, hrem⟩ := ih n hlen' hmem'
          refine ⟨rem, ?_⟩
          have hrem' : runN s n (lineEvents rest) =
              ((((parsedGuesses rest).takeWhile (fun g => g != s)).map
                  (fun g => (g, cmpOutcome g s))) ++ [(s, Outcome.win)],
               GameResult.won rem) := hrem
          have hne : (g != s) = true := by simpa using hgs
          rw [if_neg hgs, hrem']
          simp [List.takeWhile_cons, hne]

lemma runN_won_last (s : Nat) :
    ∀ fuel input rem, (runN s fuel input).2 = GameResult.won rem →
      (runN s fuel input).1.getLast? = some (s, Outcome.win) := by
  intro fuel
  induction fuel with
  | zero => intro input rem h; simp [runN] at h
  | succ n ih =>
    intro input rem h
    match input with
    | [] =>
      rw [runN_nil] at h
      simp at h
    | ReadEvent.readErr :: rest =>
      rw [runN_readErr] at h
      simp at h
    | ReadEvent.line l :: rest =>
      cases hp : parseGuess l with
      | none =>
        rw [runN_parse_fail rest hp] at h ⊢
        exact ih rest rem h
      | some g =>
        rw [runN_guess rest hp] at h ⊢
        by_cases hgs : g = s
        · subst hgs
          simp
        · rw [if_neg hgs] at h ⊢
          have hlast := ih rest rem h
          exact List.mem_getLast?_cons hlast

lemma first_word_cons (c : Char) (rest : List Char) :
    first_word (c :: rest) = if c = ' ' then [] else c :: first_word rest := by
  by_cases hc : c = ' '
  · have hcb : (c == ' ') = true := by simpa using hc
    simp [first_word, List.findIdx?_cons, hcb, hc]
  · have hcb : (c == ' ') = false := by simpa using hc
    rw [if_neg hc]
    simp only [first_word, List.findIdx?_cons, List.findIdx?_succ, hcb, Bool.false_eq_true,
      if_false]
    cases hf : rest.findIdx? (fun c => c == ' ') with
    | none => simp
    | some j => simp [List.take_succ_cons]

lemma first_word_eq_takeWhile (s : List Char) :
    first_word s = s.takeWhile (fun c => !(c == ' ')) := by
  induction s with
  | nil => rfl
  | cons c rest ih =>
    rw [first_word_cons, List.takeWhile_cons]
    by_cases hc : c = ' '
    · have hcb : (c == ' ') = true := by simpa using hc
      simp [hc, hcb]
    · have hcb : (c == ' ') = false := by simpa using hc
      simp [hc, hcb, ih]

lemma first_word_append_dropWhile (s : List Char) :
    first_word s ++ s.dropWhile (fun c => !(c == ' ')) = s := by
  rw [first_word_eq_takeWhile]
  exact List.takeWhile_append_dropWhile (fun c => !(c == ' ')) s

lemma first_word_no_space (s : List Char) : ∀ c ∈ first_word s, c ≠ ' ' := by
  intro c hc
  rw [first_word_eq_takeWhile] at hc
  have := List.mem_takeWhile_imp hc
  simpa using this

lemma first_word_before_space (s : List Char) (h : ' ' ∈ s) :
    ∃ t, first_word s ++ ' ' :: t = s := by
  induction s with
  | nil => simp at h
  | cons c rest ih =>
    by_cases hc : c = ' '
    · subst hc
      exact ⟨rest, by simp [first_word_cons]⟩
    · have hr : ' ' ∈ rest := by
        rcases List.mem_cons.mp h with hh | hh
        · exact absurd hh.symm hc
        · exact hh
      obtain ⟨t, ht⟩ := ih hr
      exact ⟨t, by rw [first_word_cons, if_neg hc, List.cons_append, ht]⟩

lemma first_word_of_no_space (s : List Char) (h : ' ' ∉ s) : first_word s = s := by
  induction s with
  | nil => rfl
  | cons c rest ih =>
    have hc : c ≠ ' ' := fun hh => h (by rw [hh]; exact List.mem_cons_self ' ' rest)
    have hr : ' ' ∉ rest := fun hh => h (List.mem_cons_of_mem c hh)
    rw [first_word_cons, if_neg hc, ih hr]

lemma first_word_longest : ∀ p t : List Char, (∀ c ∈ p, c ≠ ' ') →
    p.length ≤ (first_word (p ++ t)).length := by
  intro p
  induction p with
  | nil => intro t _; simp
  | cons a p' ih =>
    intro t hall
    have ha : a ≠ ' ' := hall a (List.mem_cons_self a p')
    rw [List.cons_append, first_word_cons, if_neg ha]
    simp only [List.length_cons]
    exact Nat.succ_le_succ (ih t fun c hc => hall c (List.mem_cons_of_mem a hc))

example : parseGuess "10" = some 10 := by decide
example : parseGuess "" = none := by decide
example : parseGuess "abc" = none := by decide
example : parseGuess "-5" = none := by decide
example : parseGuess "4294967296" = none := by decide
example : parseGuess "4294967295" = some 4294967295 := by decide
example : parseGuess " 42 " = some 42 := by decide
example : parseGuess "+7" = some 7 := by decide
example : parseGuess "+" = none := by decide
example : cmpOutcome 10 42 = Outcome.tooSmall := by decide
example : first_word "hello world".data = "hello".data := by decide
example : runLines 42 4 ["10", "abc", "90", "42"] =
    ([(10, Outcome.tooSmall), (90, Outcome.tooBig), (42, Outcome.win)],
     GameResult.won []) := by decide

/-- Claim C1: for every secret s in [1,100] and every input line sequence
whose parsed guesses end with s, the loop (observed for one iteration per
supplied line) terminates by breaking out of the loop, the success outcome
is reported last, every earlier reported outcome correctly reflects the
ordering of its guess against s, and whenever no parsed guess equals s the
loop is still running at every observation bound, so it never terminates
before a guess equal to s is supplied. -/
theorem guessing_loop_termination (s : Nat) (hs1 : 1 ≤ s) (hs2 : s ≤ 100)
    (lines : List String) :
    ((parsedGuesses lines).getLast? = some s →
      ∃ events rem, runLines s lines.length lines = (events, GameResult.won rem) ∧
        events.getLast? = some (s, Outcome.win) ∧
        ∀ e ∈ events.dropLast,
          e.1 ≠ s ∧ (e.1 < s → e.2 = Outcome.tooSmall) ∧ (s < e.1 → e.2 = Outcome.tooBig))
    ∧ (s ∉ parsedGuesses lines →
        ∀ fuel, (runLines s fuel lines).2 = GameResult.running) := by
  constructor
  · intro hlast
    have hmem : s ∈ parsedGuesses lines := List.mem_of_mem_getLast? hlast
    obtain ⟨rem, hrun⟩ := runLines_win s lines lines.length (le_refl _) hmem
    refine ⟨_, rem, hrun, by simp, ?_⟩
    intro e he
    rw [List.dropLast_concat] at he
    obtain ⟨g, hg, rfl⟩ := List.mem_map.mp he
    have hgs : g ≠ s := by
      have := List.mem_takeWhile_imp hg
      simpa using this
    exact ⟨hgs, fun hlt => cmpOutcome_of_lt hlt, fun hgt => cmpOutcome_of_gt hgt⟩
  · intro hmem fuel
    exact runLines_no_win s fuel lines hmem

/-- Witness for C1 at secret 1 with the single input line "1". -/
theorem guessing_loop_termination_witness :
    ∃ events rem, runLines 1 (["1"] : List String).length ["1"] = (events, GameResult.won rem) ∧
      events.getLast? = some (1, Outcome.win) ∧
      ∀ e ∈ events.dropLast,
        e.1 ≠ 1 ∧ (e.1 < 1 → e.2 = Outcome.tooSmall) ∧ (1 < e.1 → e.2 = Outcome.tooBig) :=
  (guessing_loop_termination 1 (by decide) (by decide) ["1"]).1 (by decide)

/-- Claim C2: for every successfully parsed guess g and secret s, one loop
iteration reports by three-way ordering: g < s records "too small" and the
loop continues on the remaining input, g > s records "too big" and the
loop continues, and g = s records the win and the loop terminates there,
leaving the remaining input unread. -/
theorem three_way_report (s g fuel : Nat) (line : String) (input : List ReadEvent)
    (h : parseGuess line = some g) :
    (g < s → runN s (fuel + 1) (ReadEvent.line line :: input) =
        ((g, Outcome.tooSmall) :: (runN s fuel input).1, (runN s fuel input).2)) ∧
    (s < g → runN s (fuel + 1) (ReadEvent.line line :: input) =
        ((g, Outcome.tooBig) :: (runN s fuel input).1, (runN s fuel input).2)) ∧
    (g = s → runN s (fuel + 1) (ReadEvent.line line :: input) =
        ([(g, Outcome.win)], GameResult.won input)) := by
  refine ⟨?_, ?_, ?_⟩
  · intro hlt
    rw [runN_guess input h, if_neg (Nat.ne_of_lt hlt), cmpOutcome_of_lt hlt]
  · intro hgt
    rw [runN_guess input h, if_neg (Nat.ne_of_gt hgt), cmpOutcome_of_gt hgt]
  · intro heq
    rw [runN_guess input h, if_pos heq]

/-- Witness for C2 at secret 5 with the parsed guess 3 from the line "3". -/
theorem three_way_report_witness :
    ((3 : Nat) < 5 → runN 5 (0 + 1) (ReadEvent.line "3" :: []) =
        ((3, Outcome.tooSmall) :: (runN 5 0 []).1, (runN 5 0 []).2)) ∧
    ((5 : Nat) < 3 → runN 5 (0 + 1) (ReadEvent.line "3" :: []) =
        ((3, Outcome.tooBig) :: (runN 5 0 []).1, (runN 5 0 []).2)) ∧
    ((3 : Nat) = 5 → runN 5 (0 + 1) (ReadEvent.line "3" :: []) =
        ([(3, Outcome.win)], GameResult.won [])) :=
  three_way_report 5 3 0 "3" [] (by decide)

/-- Claim C3: a line whose trimmed text does not parse as u32 makes the
loop iteration a no-op that re-prompts on the remaining input, recording
no comparison and changing no state; the empty string, non-numeric text,
negative literals, and values beyond u32::MAX all fail to parse this way. -/
theorem parse_failure_silent_retry (s fuel : Nat) (line : String)
    (input : List ReadEvent) (h : parseGuess line = none) :
    runN s (fuel + 1) (ReadEvent.line line :: input) = runN s fuel input ∧
    parseGuess "" = none ∧ parseGuess "abc" = none ∧ parseGuess "-5" = none ∧
    parseGuess "4294967296" = none :=
  ⟨runN_parse_fail input h, rfl, by decide, by decide, by decide⟩

/-- Witness for C3 with the unparseable line "abc". -/
theorem parse_failure_silent_retry_witness :
    runN 1 (0 + 1) (ReadEvent.line "abc" :: []) = runN 1 0 [] ∧
    parseGuess "" = none ∧ parseGuess "abc" = none ∧ parseGuess "-5" = none ∧
    parseGuess "4294967296" = none :=
  parse_failure_silent_retry 1 0 "abc" [] (by decide)

/-- Claim C4: every value the initialization gen_range(1..101) can produce
for secret_number lies in the closed range [1, 100]. -/
theorem secret_number_in_range (n : Nat) (h : secretNumberCanBe n) :
    1 ≤ n ∧ n ≤ 100 := by
  obtain ⟨h1, h2⟩ := h
  exact ⟨h1, by omega⟩

/-- Witness for C4 at the value 42. -/
theorem secret_number_in_range_witness : 1 ≤ 42 ∧ 42 ≤ 100 :=
  secret_number_in_range 42 ⟨by decide, by decide⟩

/-- Claim C5: with secret 42 and the input lines "10", "abc", "90", "42"
followed by any further lines, the loop reports too-small for 10, nothing
for "abc", too-big for 90 and the win for 42, then terminates with the
further lines unconsumed. -/
theorem scenario_secret_42 (extra : List String) :
    runLines 42 4 (["10", "abc", "90", "42"] ++ extra) =
      ([(10, Outcome.tooSmall), (90, Outcome.tooBig), (42, Outcome.win)],
       GameResult.won (lineEvents extra)) := by
  show runN 42 4 (ReadEvent.line "10" :: ReadEvent.line "abc" :: ReadEvent.line "90" ::
    ReadEvent.line "42" :: lineEvents extra) = _
  rw [runN_guess _ (by decide : parseGuess "10" = some 10), if_neg (by decide),
    cmpOutcome_of_lt (by decide),
    runN_parse_fail _ (by decide : parseGuess "abc" = none),
    runN_guess _ (by decide : parseGuess "90" = some 90), if_neg (by decide),
    cmpOutcome_of_gt (by decide),
    runN_guess _ (by decide : parseGuess "42" = some 42), if_pos rfl]

/-- Claim C6: within one run, two reported events that carry the same
non-terminal guess value carry the same comparison outcome. -/
theorem repeated_guess_same_outcome (s fuel : Nat) (lines : List String)
    (e1 e2 : Nat × Outcome)
    (h1 : e1 ∈ (runLines s fuel lines).1) (h2 : e2 ∈ (runLines s fuel lines).1)
    (hg : e1.1 = e2.1) (hne : e1.1 ≠ s) : e1.2 = e2.2 := by
  have a1 := runN_event_sound s fuel (lineEvents lines) e1 h1
  have a2 := runN_event_sound s fuel (lineEvents lines) e2 h2
  rw [a1, a2, hg]

/-- Witness for C6: secret 42 with the guess 10 submitted twice. -/
theorem repeated_guess_same_outcome_witness :
    ((10, Outcome.tooSmall) : Nat × Outcome).2 = ((10, Outcome.tooSmall) : Nat × Outcome).2 :=
  repeated_guess_same_outcome 42 3 ["10", "10", "42"] (10, Outcome.tooSmall)
    (10, Outcome.tooSmall) (by decide) (by decide) rfl (by decide)

/-- Claim C7: the secret is fixed at initialization and no step of the
read-parse-compare-report cycle changes it: every comparison outcome
reported anywhere in a run is the three-way ordering of its guess against
the one original secret value. -/
theorem comparisons_against_fixed_secret (s fuel : Nat) (input : List ReadEvent)
    (e : Nat × Outcome) (h : e ∈ (runN s fuel input).1) :
    e.2 = cmpOutcome e.1 s :=
  runN_event_sound s fuel input e h

/-- Witness for C7: secret 3, guess 7 reported as too big. -/
theorem comparisons_against_fixed_secret_witness :
    ((7, Outcome.tooBig) : Nat × Outcome).2 =
      cmpOutcome ((7, Outcome.tooBig) : Nat × Outcome).1 3 :=
  comparisons_against_fixed_secret 3 1 [ReadEvent.line "7"] (7, Outcome.tooBig) (by decide)

/-- Claim C8: a failed read aborts the process at once, recording nothing
and never retrying the read, while a run can end in the won state only
with the success event reported last. -/
theorem read_failure_fatal (s fuel : Nat) (input rest rem : List ReadEvent)
    (h : (runN s fuel input).2 = GameResult.won rem) :
    runN s (fuel + 1) (ReadEvent.readErr :: rest) = ([], GameResult.aborted) ∧
    (runN s fuel input).1.getLast? = some (s, Outcome.win) :=
  ⟨runN_readErr s fuel rest, runN_won_last s fuel input rem h⟩

/-- Witness for C8: secret 1, a winning run on the line "1". -/
theorem read_failure_fatal_witness :
    runN 1 (1 + 1) (ReadEvent.readErr :: []) = ([], GameResult.aborted) ∧
    (runN 1 1 [ReadEvent.line "1"]).1.getLast? = some (1, Outcome.win) :=
  read_failure_fatal 1 1 [ReadEvent.line "1"] [] [] (by decide)

/-- Claim C9: at end of file the read succeeds with the empty line, the
empty line fails to parse, so the exhausted-stream iteration is a silent
retry that changes nothing; hence when no supplied line parses to the
secret, the loop is still running at every observation bound and never
terminates, neither normally nor abnormally. -/
theorem eof_silent_retry_no_termination (s fuel : Nat) (lines : List String)
    (h : s ∉ parsedGuesses lines) :
    readLine [] = (ReadEvent.line "", []) ∧
    parseGuess "" = none ∧
    runN s (fuel + 1) [] = runN s fuel [] ∧
    (runLines s fuel lines).2 = GameResult.running := by
  refine ⟨rfl, rfl, ?_, runLines_no_win s fuel lines h⟩
  rw [runN_nil, runN_nil]

/-- Witness for C9: secret 1 with the input lines "2" and "abc". -/
theorem eof_silent_retry_no_termination_witness :
    readLine [] = (ReadEvent.line "", []) ∧
    parseGuess "" = none ∧
    runN 1 (2 + 1) [] = runN 1 2 [] ∧
    (runLines 1 2 ["2", "abc"]).2 = GameResult.running :=
  eof_silent_retry_no_termination 1 2 ["2", "abc"] (by decide)

/-- Claim C10: first_word returns the longest prefix of its input that
contains no space: the result is a prefix, it contains no space, when the
input contains a space the result is exactly the segment strictly before
the first space, when it contains none the result is the whole input, and
every space-free prefix is no longer than it. -/
theorem first_word_spec (s : List Char) :
    (∃ t, first_word s ++ t = s) ∧
    (∀ c ∈ first_word s, c ≠ ' ') ∧
    (' ' ∈ s → ∃ t, first_word s ++ ' ' :: t = s) ∧
    (' ' ∉ s → first_word s = s) ∧
    (∀ p t, p ++ t = s → (∀ c ∈ p, c ≠ ' ') → p.length ≤ (first_word s).length) := by
  refine ⟨⟨s.dropWhile (fun c => !(c == ' ')), first_word_append_dropWhile s⟩,
    first_word_no_space s, first_word_before_space s, first_word_of_no_space s, ?_⟩
  intro p t hpt hall
  rw [← hpt]
  exact first_word_longest p t hall
